import Mathlib

/-!
# Verification of the serverless-ide language-server core

Shallow embedding of the language-server entry points of
`serverless-ide-vscode` (the `server.ts` module and the hover service in
`src/packages/language-server/src/language-service/services/hover/index.ts`),
together with proofs of the specified properties.

Conventions of the embedding:
* document text is a `List Char`; offsets are `Nat` indices into that list;
* JavaScript numbers used as column coordinates are `Int` (they may go
  negative, e.g. `position.character - 1`);
* functions of the repository that are not part of the provided sources
  (the YAML parser's AST accessors, `arrayUtils`, the schema resolver and
  the documentation service) are either modelled from the specification
  (marked `Modelled from the spec:`) or passed in as explicit oracle
  parameters, so that the logic of the provided sources stays the subject
  of every theorem.
-/

/-! ## Diagnostics and the validation publishing pipeline (`server.ts`) -/

/-- An editor range: start and end `(line, character)` pairs, as carried by a
language-server diagnostic. -/
structure Range where
  startLine : Nat
  startCharacter : Nat
  endLine : Nat
  endCharacter : Nat
  deriving DecidableEq, Repr

/-- A language-server diagnostic: range, human-readable message, numeric
severity (`1` = error), and a producer tag. -/
structure Diagnostic where
  range : Range
  message : String
  severity : Int
  src : String
  deriving DecidableEq, Repr

/-- Key under which diagnostics are considered duplicates: range plus message. -/
def diagKey (d : Diagnostic) : Range × String :=
  (d.range, d.message)

/-- Left-to-right scan keeping only the first diagnostic for each
`(range, message)` key; `seen` accumulates the keys already emitted. -/
def dedupByKey (seen : List (Range × String)) : List Diagnostic → List Diagnostic
  | [] => []
  | d :: rest =>
    if diagKey d ∈ seen then dedupByKey seen rest
    else d :: dedupByKey (diagKey d :: seen) rest

/-- Modelled from the spec: `removeDuplicatesObj` (imported by `server.ts`
from `language-service/utils/arrayUtils`, a file not among the provided
sources) removes duplicate diagnostics — same range and same message —
keeping the first occurrence of each key. -/
def removeDuplicatesObj (ds : List Diagnostic) : List Diagnostic :=
  dedupByKey [] ds

/-- `diagnosticItem.severity = 1` — the per-item mutation `server.ts` applies
to every diagnostic produced by `doValidation` ("Convert all warnings to
errors"). -/
def setSeverityError (d : Diagnostic) : Diagnostic :=
  { d with severity := 1 }

/-- The `validateTextDocument` function of `server.ts`, modelled as the
diagnostics payload it publishes via `connection.sendDiagnostics`:
`none` means nothing is published (the null-document early return), and
`some ds` means `ds` is published for the document's URI.

`isSupported` stands for `isSupportedDocument` (imported from
`language-service/utils/document`, not among the provided sources) and
`doValidationResult` for the diagnostics list the validation engine's
`doValidation` promise resolves with; both are oracle inputs. -/
def validateTextDocument (isSupported : List Char → Bool)
    (doValidationResult : List Diagnostic)
    (textDocument : Option (List Char)) : Option (List Diagnostic) :=
  match textDocument with
  | none => none
  | some text =>
    if text.length = 0 then some []
    else if isSupported text = false then some []
    else some (removeDuplicatesObj (doValidationResult.map setSeverityError))

/-! ### Lemmas about the dedup scan -/

theorem mem_of_mem_dedupByKey {d : Diagnostic} :
    ∀ {seen : List (Range × String)} {l : List Diagnostic},
      d ∈ dedupByKey seen l → d ∈ l := by
  intro seen l
  induction l generalizing seen with
  | nil => intro h; simp [dedupByKey] at h
  | cons a rest ih =>
    intro h
    by_cases hk : diagKey a ∈ seen
    · simp only [dedupByKey, if_pos hk] at h
      exact List.mem_cons_of_mem _ (ih h)
    · simp only [dedupByKey, if_neg hk, List.mem_cons] at h
      rcases h with h | h
      · exact h ▸ List.mem_cons_self _ _
      · exact List.mem_cons_of_mem _ (ih h)

theorem key_not_seen_of_mem_dedupByKey {d : Diagnostic} :
    ∀ {seen : List (Range × String)} {l : List Diagnostic},
      d ∈ dedupByKey seen l → diagKey d ∉ seen := by
  intro seen l
  induction l generalizing seen with
  | nil => intro h; simp [dedupByKey] at h
  | cons a rest ih =>
    intro h
    by_cases hk : diagKey a ∈ seen
    · simp only [dedupByKey, if_pos hk] at h
      exact ih h
    · simp only [dedupByKey, if_neg hk, List.mem_cons] at h
      rcases h with h | h
      · exact h ▸ hk
      · intro hmem
        exact ih h (List.mem_cons_of_mem _ hmem)

theorem pairwise_dedupByKey :
    ∀ (seen : List (Range × String)) (l : List Diagnostic),
      List.Pairwise (fun a b => diagKey a ≠ diagKey b) (dedupByKey seen l) := by
  intro seen l
  induction l generalizing seen with
  | nil => simp [dedupByKey]
  | cons a rest ih =>
    by_cases hk : diagKey a ∈ seen
    · simpa only [dedupByKey, if_pos hk] using ih seen
    · simp only [dedupByKey, if_neg hk]
      refine List.Pairwise.cons ?_ (ih _)
      intro b hb hab
      exact key_not_seen_of_mem_dedupByKey hb (hab ▸ List.mem_cons_self _ _)

/-! ### C1, C2, C10 -/

/-- C1: every diagnostic in the list published by `validateTextDocument`
has severity `1` (error), whatever severity the validation engine's
`doValidation` originally assigned. -/
theorem c1_published_severity_is_error
    (isSupported : List Char → Bool) (doValidationResult : List Diagnostic)
    (textDocument : Option (List Char)) (ds : List Diagnostic)
    (hpub : validateTextDocument isSupported doValidationResult textDocument = some ds)
    (d : Diagnostic) (hd : d ∈ ds) : d.severity = 1 := by
  match textDocument with
  | none => simp [validateTextDocument] at hpub
  | some text =>
    by_cases h0 : text.length = 0
    · simp only [validateTextDocument, if_pos h0, Option.some.injEq] at hpub
      subst hpub
      simp at hd
    · by_cases hs : isSupported text = false
      · simp only [validateTextDocument, if_neg h0, if_pos hs, Option.some.injEq] at hpub
        subst hpub
        simp at hd
      · simp only [validateTextDocument, if_neg h0, if_neg hs, Option.some.injEq] at hpub
        subst hpub
        have hd' := mem_of_mem_dedupByKey hd
        rcases List.mem_map.mp hd' with ⟨d0, _, rfl⟩
        rfl

/-- Witness for C1 at a concrete warning-severity diagnostic. -/
theorem c1_published_severity_is_error_witness :
    validateTextDocument (fun _ => true)
        [{ range := ⟨0, 0, 0, 1⟩, message := "m", severity := 2, src := "s" }]
        (some ['a'])
      = some [{ range := ⟨0, 0, 0, 1⟩, message := "m", severity := 1, src := "s" }] ∧
    ({ range := ⟨0, 0, 0, 1⟩, message := "m", severity := 1, src := "s" } : Diagnostic).severity
      = 1 := by
  refine ⟨by decide, ?_⟩
  exact c1_published_severity_is_error (fun _ => true)
    [{ range := ⟨0, 0, 0, 1⟩, message := "m", severity := 2, src := "s" }]
    (some ['a'])
    [{ range := ⟨0, 0, 0, 1⟩, message := "m", severity := 1, src := "s" }] (by decide)
    { range := ⟨0, 0, 0, 1⟩, message := "m", severity := 1, src := "s" } (by decide)

/-- C2: the published list never contains two diagnostics sharing both range
and message, and re-running on unchanged inputs publishes the identical
list (the model is a pure function of its inputs). -/
theorem c2_published_no_duplicates
    (isSupported : List Char → Bool) (doValidationResult : List Diagnostic)
    (textDocument : Option (List Char)) (ds : List Diagnostic)
    (hpub : validateTextDocument isSupported doValidationResult textDocument = some ds) :
    List.Pairwise (fun a b => ¬(a.range = b.range ∧ a.message = b.message)) ds ∧
    validateTextDocument isSupported doValidationResult textDocument = some ds := by
  refine ⟨?_, hpub⟩
  match textDocument with
  | none => simp [validateTextDocument] at hpub
  | some text =>
    by_cases h0 : text.length = 0
    · simp only [validateTextDocument, if_pos h0, Option.some.injEq] at hpub
      subst hpub; simp
    · by_cases hs : isSupported text = false
      · simp only [validateTextDocument, if_neg h0, if_pos hs, Option.some.injEq] at hpub
        subst hpub; simp
      · simp only [validateTextDocument, if_neg h0, if_neg hs, Option.some.injEq] at hpub
        subst hpub
        refine (pairwise_dedupByKey [] _).imp ?_
        intro a b hab ⟨hr, hm⟩
        exact hab (by simp [diagKey, hr, hm])

/-- Witness for C2: a run that receives the same diagnostic twice publishes
it once. -/
theorem c2_published_no_duplicates_witness :
    validateTextDocument (fun _ => true)
        [{ range := ⟨0, 0, 0, 1⟩, message := "m", severity := 2, src := "s" },
         { range := ⟨0, 0, 0, 1⟩, message := "m", severity := 3, src := "s" }]
        (some ['a'])
      = some [{ range := ⟨0, 0, 0, 1⟩, message := "m", severity := 1, src := "s" }] ∧
    List.Pairwise (fun a b => ¬(a.range = b.range ∧ a.message = b.message))
      [({ range := ⟨0, 0, 0, 1⟩, message := "m", severity := 1, src := "s" } : Diagnostic)] := by
  refine ⟨by decide, ?_⟩
  exact (c2_published_no_duplicates (fun _ => true)
    [{ range := ⟨0, 0, 0, 1⟩, message := "m", severity := 2, src := "s" },
     { range := ⟨0, 0, 0, 1⟩, message := "m", severity := 3, src := "s" }]
    (some ['a'])
    [{ range := ⟨0, 0, 0, 1⟩, message := "m", severity := 1, src := "s" }] (by decide)).1

/-- C10: for a document whose text is empty or not recognized as a supported
template, `validateTextDocument` publishes the empty diagnostics list, for
every possible outcome of the validation engine (so no parse or validation
result can influence the published list). -/
theorem c10_unsupported_publishes_empty
    (isSupported : List Char → Bool) (doValidationResult : List Diagnostic)
    (text : List Char)
    (h : text.length = 0 ∨ isSupported text = false) :
    validateTextDocument isSupported doValidationResult (some text) = some [] := by
  rcases h with h | h
  · simp [validateTextDocument, h]
  · by_cases h0 : text.length = 0
    · simp [validateTextDocument, h0]
    · simp [validateTextDocument, h0, h]

/-- Witness for C10 at the empty text and at an unsupported text. -/
theorem c10_unsupported_publishes_empty_witness :
    validateTextDocument (fun _ => false)
        [{ range := ⟨0, 0, 0, 1⟩, message := "m", severity := 2, src := "s" }]
        (some ['a'])
      = some [] := by
  exact c10_unsupported_publishes_empty (fun _ => false)
    [{ range := ⟨0, 0, 0, 1⟩, message := "m", severity := 2, src := "s" }]
    ['a'] (Or.inr rfl)

deriving instance DecidableEq for Except

/-- `s.indexOf("AWS::") === 0`: the string begins with the `AWS::`
resource-type namespace (computed on the character list so that concrete
instances evaluate). -/
def startsWithAwsNamespace (s : String) : Bool :=
  "AWS::".toList.isPrefixOf s.toList

/-! ## The hover service (`services/hover/index.ts`)

The YAML parser (`parser/jsonParser`) is not among the provided sources, so
its AST is modelled from the spec's data model: Object, Array, Scalar and
Property nodes with `start`/`end` offsets; a Scalar leaf carries a
string / number / boolean / null value. The `parent` chain and `getPath()`
of the node resolved at the hover offset are supplied as explicit data
(`NodeCtx`), and the two documentation fetchers are oracle parameters. -/

/-- The JavaScript value a node's `getValue()` yields. Scalar values follow
the spec's data model; `vArr`/`vObj` stand for the (unspecified) container
values, which never satisfy a string-prefix test. -/
inductive JsVal where
  | vStr (s : String)
  | vNum (n : Int)
  | vBool (b : Bool)
  | vNull
  | vArr
  | vObj
  deriving DecidableEq, Repr

/-- JavaScript truthiness of a `getValue()` result (containers are truthy,
`""`, `0`, `false` and `null` are falsy). -/
def truthy : JsVal → Bool
  | .vStr s => s ≠ ""
  | .vNum n => n ≠ 0
  | .vBool b => b
  | .vNull => false
  | .vArr => true
  | .vObj => true

/-- Syntax-tree node, per the spec's data model: half-open `[start, end)`
offsets, a `type` discriminant given by the constructor, object children
being property nodes, and a property carrying its key's literal text
(`key.location`) and an optional value node. -/
inductive ASTNode where
  | object (nodeStart nodeEnd : Nat) (children : List ASTNode)
  | array (nodeStart nodeEnd : Nat) (items : List ASTNode)
  | scalar (nodeStart nodeEnd : Nat) (value : JsVal)
  | property (nodeStart nodeEnd : Nat) (keyLocation : String) (value : Option ASTNode)

def nodeStart : ASTNode → Nat
  | .object s _ _ => s
  | .array s _ _ => s
  | .scalar s _ _ => s
  | .property s _ _ _ => s

def nodeEnd : ASTNode → Nat
  | .object _ e _ => e
  | .array _ e _ => e
  | .scalar _ e _ => e
  | .property _ e _ _ => e

/-- `node.type === "object" || node.type === "array"`. -/
def isObjectOrArray : ASTNode → Bool
  | .object _ _ _ => true
  | .array _ _ _ => true
  | _ => false

/-- Modelled from the spec: `getValue()` of a node — the scalar's value for
scalar leaves, a container value otherwise (the spec does not assign
container nodes a value). -/
def getValue : ASTNode → JsVal
  | .object _ _ _ => .vObj
  | .array _ _ _ => .vArr
  | .scalar _ _ v => v
  | .property _ _ _ _ => .vObj

/-- One step of the `children.find` callback inside `getResourceName`:
for a property child whose key text is `"Type"`, evaluate
`resourceTypeValue && resourceTypeValue.indexOf("AWS::") === 0`.
`.error ()` models the JavaScript `TypeError` raised when `.indexOf` is
called on a truthy value that has no such method (a number, a boolean or a
plain object); an array value is taken not to match the prefix test. -/
def typeCheckChild (child : ASTNode) : Except Unit (Option String) :=
  match child with
  | .property _ _ keyLocation value =>
    if keyLocation = "Type" then
      match value with
      | none => .ok none
      | some v =>
        let rv := getValue v
        if truthy rv = true then
          match rv with
          | .vStr s => .ok (if startsWithAwsNamespace s = true then some s else none)
          | .vArr => .ok none
          | _ => .error ()
        else .ok none
    else .ok none
  | _ => .ok none

/-- `children.find(...)` over an object's children: first `"Type"` property
whose value passes the prefix test, propagating a raised `TypeError`. -/
def findTypeInChildren : List ASTNode → Except Unit (Option String)
  | [] => .ok none
  | c :: rest =>
    match typeCheckChild c with
    | .error e => .error e
    | .ok (some r) => .ok (some r)
    | .ok none => findTypeInChildren rest

/-- The inner `getResourceName` helper of the hover service: only object
nodes are examined. -/
def typeResourceName (targetNode : ASTNode) : Except Unit (Option String) :=
  match targetNode with
  | .object _ _ children => findTypeInChildren children
  | _ => .ok none

/-- One segment of `getPath()`: a mapping key or an array index. -/
inductive PathSeg where
  | key (s : String)
  | idx (n : Nat)
  deriving DecidableEq, Repr

/-- JavaScript truthiness of a path segment used as `propertyName`
(`""` and `0` are falsy). -/
def segTruthy : PathSeg → Bool
  | .key s => s ≠ ""
  | .idx n => n ≠ 0

/-- `String(propertyName)`. -/
def segToString : PathSeg → String
  | .key s => s
  | .idx n => toString n

/-- The `while` loop of `getResourceName`: walk the ancestor chain
(nearest first) while no resource name was found, the current node exists
and fewer than `maxDepth = 7` ancestors have been examined. -/
def searchAncestors : List ASTNode → Nat → Except Unit (Option String)
  | [], _ => .ok none
  | n :: rest, depth =>
    if depth < 7 then
      match typeResourceName n with
      | .error e => .error e
      | .ok (some r) => .ok (some r)
      | .ok none => searchAncestors rest (depth + 1)
    else .ok none

/-- `getResourceName` of the hover service, on a resolved node given with
its path and its ancestor chain (nearest ancestor first). -/
def getResourceName (node : ASTNode) (path : List PathSeg)
    (ancestors : List ASTNode) : Except Unit (Option String) :=
  if path.get? 0 = some (.key "Resources") ∧ 1 < path.length then
    match typeResourceName node with
    | .error e => .error e
    | .ok (some r) => .ok (some r)
    | .ok none => searchAncestors ancestors 0
  else .ok none

/-- `getPropertyName` of the hover service: the fourth path segment of a
`Resources.<name>.Properties.<property>...` path. -/
def getPropertyName (path : List PathSeg) : Option PathSeg :=
  if 4 ≤ path.length ∧ path.get? 0 = some (.key "Resources") ∧
      path.get? 2 = some (.key "Properties") then
    path.get? 3
  else none

/-- A resolved hover node together with the `getPath()` result and the
parent chain the parser would supply for it. -/
structure NodeCtx where
  node : ASTNode
  path : List PathSeg
  ancestors : List ASTNode

/-- A hover result: markdown contents plus the highlighted offset range. -/
structure Hover where
  contents : List String
  hoverRange : Nat × Nat
  deriving DecidableEq, Repr

/-- `if (markdown) return createHover([markdown], hoverRange)` — an absent
or empty (falsy) markdown string produces no hover. -/
def renderDoc (markdown : Option String) (hoverRange : Nat × Nat) :
    Except Unit (Option Hover) :=
  match markdown with
  | some md => if md = "" then .ok none else .ok (some ⟨[md], hoverRange⟩)
  | none => .ok none

/-- `doHover` of the hover service. `schema` is the result of
`getSchemaForResource` (schema resolution is not among the provided
sources; per the spec a fetch failure yields no schema, i.e. `none`);
`resolved` is the node `matchOffsetToDocument`/`getNodeFromOffset` resolve
at `offset` (`none` when either finds nothing); `propDoc`/`resDoc` are the
documentation-service fetchers. `.error ()` models a raised `TypeError`. -/
def doHover (shouldHover : Bool) (schema : Option Unit) (offset : Nat)
    (resolved : Option NodeCtx)
    (propDoc : String → String → Option String)
    (resDoc : String → Option String) : Except Unit (Option Hover) :=
  if shouldHover = false then .ok none
  else
    match schema with
    | none => .ok none
    | some _ =>
      match resolved with
      | none => .ok none
      | some ctx =>
        if isObjectOrArray ctx.node = true ∧ nodeStart ctx.node + 1 < offset ∧
            offset < nodeEnd ctx.node - 1 then .ok none
        else
          let hoverRange := (nodeStart ctx.node, nodeEnd ctx.node)
          if 2 ≤ ctx.path.length then
            match getResourceName ctx.node ctx.path ctx.ancestors with
            | .error e => .error e
            | .ok none => .ok none
            | .ok (some resourceType) =>
              match getPropertyName ctx.path with
              | some seg =>
                if segTruthy seg = true then
                  renderDoc (propDoc resourceType (segToString seg)) hoverRange
                else renderDoc (resDoc resourceType) hoverRange
              | none => renderDoc (resDoc resourceType) hoverRange
          else .ok none

/-! ### C5, C9 -/

/-- C5: when the node resolved at the offset is an object or an array and the
offset lies strictly inside the node's interval past its delimiters
(`offset > start + 1` and `offset < end - 1`), `doHover` returns absent. -/
theorem c5_hover_absent_inside_container (shouldHover : Bool) (schema : Option Unit)
    (offset : Nat) (ctx : NodeCtx)
    (propDoc : String → String → Option String) (resDoc : String → Option String)
    (hobj : isObjectOrArray ctx.node = true)
    (h1 : nodeStart ctx.node + 1 < offset) (h2 : offset < nodeEnd ctx.node - 1) :
    doHover shouldHover schema offset (some ctx) propDoc resDoc = .ok none := by
  unfold doHover
  by_cases hsh : shouldHover = false
  · simp [hsh]
  · cases schema with
    | none => simp [hsh]
    | some u => simp [hsh, hobj, h1, h2]

/-- Witness for C5: hovering at offset 5 strictly inside the empty object
spanning offsets `[0, 10)`. -/
theorem c5_hover_absent_inside_container_witness :
    doHover true (some ()) 5 (some ⟨.object 0 10 [], [.key "Resources", .key "N"], []⟩)
        (fun _ _ => some "P") (fun _ => some "R") = .ok none := by
  exact c5_hover_absent_inside_container true (some ()) 5
    ⟨.object 0 10 [], [.key "Resources", .key "N"], []⟩
    (fun _ _ => some "P") (fun _ => some "R") rfl (by decide) (by decide)

/-- C9: when schema resolution yields no schema for the document (the spec
maps fetch failures to "no schema"), `doHover` returns absent, for every
hover position, resolved node and documentation source. -/
theorem c9_hover_absent_without_schema (shouldHover : Bool) (offset : Nat)
    (resolved : Option NodeCtx)
    (propDoc : String → String → Option String) (resDoc : String → Option String) :
    doHover shouldHover none offset resolved propDoc resDoc = .ok none := by
  unfold doHover
  by_cases hsh : shouldHover = false <;> simp [hsh]

/-! ### C6 -/

/-- A successful resource-type search implies the path precondition it
checks first: the path starts at `Resources` and has length greater than 1. -/
theorem getResourceName_ok_some_path {node : ASTNode} {path : List PathSeg}
    {ancestors : List ASTNode} {r : String}
    (h : getResourceName node path ancestors = .ok (some r)) :
    path.get? 0 = some (.key "Resources") ∧ 1 < path.length := by
  by_cases hc : path.get? 0 = some (.key "Resources") ∧ 1 < path.length
  · exact hc
  · simp only [getResourceName, if_neg hc] at h
    exact Option.noConfusion (Except.ok.inj h)

/-- C6 (amended): for a resolved node with a determined resource type, a
property-level description keyed by the resource type and the fourth path
segment is requested when the path has shape
`[Resources, _, Properties, p, ...]` *and* the fourth segment `p` is truthy
(a non-empty key or a non-zero index); in every other case — including a
falsy fourth segment — a resource-type-level description is requested. -/
theorem c6_amended_description_request (offset : Nat) (ctx : NodeCtx)
    (propDoc : String → String → Option String) (resDoc : String → Option String)
    (resourceType : String)
    (hguard : ¬(isObjectOrArray ctx.node = true ∧ nodeStart ctx.node + 1 < offset ∧
        offset < nodeEnd ctx.node - 1))
    (hrt : getResourceName ctx.node ctx.path ctx.ancestors = .ok (some resourceType)) :
    (∀ seg, 4 ≤ ctx.path.length → ctx.path.get? 2 = some (.key "Properties") →
        ctx.path.get? 3 = some seg → segTruthy seg = true →
        doHover true (some ()) offset (some ctx) propDoc resDoc =
          renderDoc (propDoc resourceType (segToString seg))
            (nodeStart ctx.node, nodeEnd ctx.node)) ∧
    ((¬(4 ≤ ctx.path.length ∧ ctx.path.get? 2 = some (.key "Properties")) ∨
        (∃ seg, ctx.path.get? 3 = some seg ∧ segTruthy seg = false)) →
        doHover true (some ()) offset (some ctx) propDoc resDoc =
          renderDoc (resDoc resourceType) (nodeStart ctx.node, nodeEnd ctx.node)) := by
  have hpath := getResourceName_ok_some_path hrt
  have hlen : 2 ≤ ctx.path.length := hpath.2
  constructor
  · intro seg h4 hprops h3 htruthy
    have hname : getPropertyName ctx.path = some seg := by
      simp only [getPropertyName, if_pos (And.intro h4 (And.intro hpath.1 hprops))]
      exact h3
    simp [doHover, hguard, hlen, hrt, hname, htruthy]
  · intro hcase
    rcases hcase with hshape | ⟨seg, h3, hfalsy⟩
    · have hname : getPropertyName ctx.path = none := by
        unfold getPropertyName
        rw [if_neg]
        intro ⟨h4, _, hprops⟩
        exact hshape ⟨h4, hprops⟩
      simp [doHover, hguard, hlen, hrt, hname]
    · by_cases hshape : 4 ≤ ctx.path.length ∧ ctx.path.get? 2 = some (.key "Properties")
      · have hname : getPropertyName ctx.path = some seg := by
          simp only [getPropertyName, if_pos (And.intro hshape.1 (And.intro hpath.1 hshape.2))]
          exact h3
        simp [doHover, hguard, hlen, hrt, hname, hfalsy]
      · have hname : getPropertyName ctx.path = none := by
          unfold getPropertyName
          rw [if_neg]
          intro ⟨h4, _, hprops⟩
          exact hshape ⟨h4, hprops⟩
        simp [doHover, hguard, hlen, hrt, hname]

/-- The resolved node of C6's counterexample: the value scalar of a
property with the empty-string key under
`Resources.N.Properties`, in a resource of type `AWS::Foo`.
In YAML: `Resources: { N: { Type: AWS::Foo, Properties: { "": x } } }`. -/
def c6ctx : NodeCtx :=
  let valueNode : ASTNode := .scalar 40 42 (.vStr "x")
  let propEmptyKey : ASTNode := .property 36 42 "" (some valueNode)
  let propsObj : ASTNode := .object 34 44 [propEmptyKey]
  let propProperties : ASTNode := .property 22 44 "Properties" (some propsObj)
  let typeProp : ASTNode := .property 12 21 "Type" (some (.scalar 18 21 (.vStr "AWS::Foo")))
  let resObj : ASTNode := .object 8 60 [typeProp, propProperties]
  { node := valueNode
    path := [.key "Resources", .key "N", .key "Properties", .key ""]
    ancestors := [propEmptyKey, propsObj, propProperties, resObj] }

/-- C6 counterexample: the resolved node has a determined resource type
`AWS::Foo` and a path of shape `[Resources, N, Properties, ""]` — length 4,
first segment `Resources`, third `Properties` — yet `doHover` requests the
resource-type-level description, not the property-level one the claim
prescribes, because the empty-string fourth segment is falsy. -/
theorem c6_counterexample :
    getResourceName c6ctx.node c6ctx.path c6ctx.ancestors = .ok (some "AWS::Foo") ∧
    c6ctx.path.length = 4 ∧
    c6ctx.path.get? 0 = some (.key "Resources") ∧
    c6ctx.path.get? 2 = some (.key "Properties") ∧
    c6ctx.path.get? 3 = some (.key "") ∧
    doHover true (some ()) 40 (some c6ctx) (fun _ _ => some "PROPERTY")
        (fun _ => some "RESOURCE")
      = .ok (some ⟨["RESOURCE"], (40, 42)⟩) ∧
    doHover true (some ()) 40 (some c6ctx) (fun _ _ => some "PROPERTY")
        (fun _ => some "RESOURCE")
      ≠ renderDoc ((fun (_ _ : String) => some "PROPERTY") "AWS::Foo" "") (40, 42) := by
  refine ⟨by decide, by decide, by decide, by decide, by decide, by decide, by decide⟩

/-- Witness for the amended C6 at a truthy property segment
(`Resources.N.Properties.BucketName`) and at C6's falsy one. -/
theorem c6_amended_description_request_witness :
    doHover true (some ()) 40
        (some ⟨c6ctx.node, [.key "Resources", .key "N", .key "Properties",
          .key "BucketName"], c6ctx.ancestors⟩)
        (fun _ _ => some "PROPERTY") (fun _ => some "RESOURCE")
      = .ok (some ⟨["PROPERTY"], (40, 42)⟩) ∧
    doHover true (some ()) 40 (some c6ctx) (fun _ _ => some "PROPERTY")
        (fun _ => some "RESOURCE")
      = .ok (some ⟨["RESOURCE"], (40, 42)⟩) := by
  constructor
  · have h := (c6_amended_description_request 40
      ⟨c6ctx.node, [.key "Resources", .key "N", .key "Properties", .key "BucketName"],
        c6ctx.ancestors⟩
      (fun _ _ => some "PROPERTY") (fun _ => some "RESOURCE") "AWS::Foo"
      (by decide) (by decide)).1 (.key "BucketName") (by decide) (by decide) (by decide)
      (by decide)
    exact h.trans (by decide)
  · have h := (c6_amended_description_request 40 c6ctx
      (fun _ _ => some "PROPERTY") (fun _ => some "RESOURCE") "AWS::Foo"
      (by decide) (by decide)).2 (Or.inr ⟨.key "", by decide, by decide⟩)
    exact h.trans (by decide)

/-! ### C7, C8

The resource-type search of `getResourceName` evaluates
`resourceTypeValue.indexOf("AWS::")` on whatever `getValue()` returned for
a truthy `Type` property value. The spec's data model makes scalar leaves
carry string / number / boolean / null values, and on a truthy number or
boolean (or an object) `.indexOf` is not a function, so the call raises a
`TypeError` instead of letting the search yield absent — contradicting the
spec's "Absence of a resolvable resource type yields absent, not an error"
and its ban on unrecoverable faults for malformed input. The two theorems
below evaluate the model at such inputs. -/

/-- A resource object declaring `Type: true` — syntactically valid YAML that
is merely meaningless as a template. -/
def c7node : ASTNode :=
  .object 8 40 [.property 12 22 "Type" (some (.scalar 18 22 (.vBool true)))]

/-- C7: at a node whose path starts with `Resources` (length 2), whose own
object declares `Type: true`, the resource-type search raises a type fault
instead of yielding absent — the claim's "otherwise the search yields
absent" fails on the code. -/
theorem c7_search_faults_on_boolean_type :
    getResourceName c7node [.key "Resources", .key "Foo"] [] = .error () ∧
    getResourceName c7node [.key "Resources", .key "Foo"] [] ≠ .ok none := by
  exact ⟨by decide, by decide⟩

/-- The resolved hover context of C8's failing input: hover on a resource
object declaring `Type: 5` (e.g. the document
`Resources:\n  Foo:\n    Type: 5\n`, cursor on the resource body). -/
def c8ctx : NodeCtx :=
  { node := .object 8 40 [.property 12 19 "Type" (some (.scalar 18 19 (.vNum 5)))]
    path := [.key "Resources", .key "Foo"]
    ancestors := [] }

/-- C8: `doHover` on the well-bounded offset 9 of that document raises the
propagated type fault instead of returning a value, so the no-fault claim
fails on the code (the hover offset is inside the document, hover is
enabled and a schema is resolved). -/
theorem c8_doHover_faults_on_numeric_type :
    doHover true (some ()) 9 (some c8ctx) (fun _ _ => some "P") (fun _ => some "R")
      = .error () ∧
    ∀ h : Option Hover,
      doHover true (some ()) 9 (some c8ctx) (fun _ _ => some "P") (fun _ => some "R")
        ≠ .ok h := by
  refine ⟨by decide, ?_⟩
  intro h hcontra
  have : (Except.error () : Except Unit (Option Hover)) = .ok h := by
    have he : doHover true (some ()) 9 (some c8ctx) (fun _ _ => some "P")
        (fun _ => some "R") = .error () := by decide
    exact he ▸ hcontra
  exact Except.noConfusion this

/-! ## Completion input repair (`completionHelper` in `server.ts`) -/

/-- `is_EOL` of `server.ts`: the character code is LF (`0x0a`) or CR
(`0x0d`). -/
def is_EOL (c : Char) : Bool :=
  c.toNat = 0x0a || c.toNat = 0x0d

/-- Modelled from the spec: `getLineOffsets` (imported by `server.ts` from
`language-service/utils/arrayUtils`, not among the provided sources) — the
start offset of every line of the text, lines being opened at offset `0`
and after each LF, CR or CR LF terminator (so a trailing terminator opens a
final empty line at offset `text.length`). `i` is the offset of the first
character of `rest`; `lineStart` records whether that character begins a
line. -/
def lineOffsetsAux : Nat → Bool → Bool → List Char → List Nat
  | i, lineStart, _, [] => if lineStart = true ∧ 0 < i then [i] else []
  | i, lineStart, prevCR, c :: rest =>
    if prevCR = true ∧ c = '\n' then lineOffsetsAux (i + 1) true false rest
    else
      (if lineStart = true then [i] else []) ++
        lineOffsetsAux (i + 1) (is_EOL c) (c == '\r') rest

/-- Modelled from the spec: see `lineOffsetsAux` (`prevCR` starts false: the
first character cannot complete a CR LF pair). -/
def getLineOffsets (text : List Char) : List Nat :=
  lineOffsetsAux 0 true false text

/-- JavaScript `x || d` on an optionally-present number: an absent or zero
(falsy) value falls back to `d`. -/
def truthyOr (x : Option Nat) (d : Nat) : Nat :=
  match x with
  | some e => if e = 0 then d else e
  | none => d

/-- The `while (end - 1 >= 0 && is_EOL(text.charCodeAt(end - 1))) end--`
loop of `completionHelper`: back the end offset over any trailing
end-of-line characters. -/
def stripEOLs (text : List Char) : Nat → Nat
  | 0 => 0
  | e + 1 => if (text.get? e).any is_EOL then stripEOLs text e else e + 1

/-- JavaScript `text.substring(a, b)`: both arguments clamped to
`[0, text.length]` and swapped if out of order (an undefined start is
already coerced to `0` by the caller). -/
def jsSubstring (text : List Char) (a b : Nat) : List Char :=
  (text.take (min (max a b) text.length)).drop (min (min a b) text.length)

/-- Whitespace removed by JavaScript `trim()`: the ECMAScript WhiteSpace
set (tab, vertical tab, form feed, space, no-break space, zero-width
no-break space, and the Unicode space separators) together with the
LineTerminator set (LF, CR, line separator, paragraph separator). -/
def isWS (c : Char) : Bool :=
  c = '\t' || c = '\u000B' || c = '\u000C' || c = ' ' || c = '\u00A0' ||
  c = '\uFEFF' || c = '\u1680' || (0x2000 ≤ c.toNat && c.toNat ≤ 0x200A) ||
  c = '\u202F' || c = '\u205F' || c = '\u3000' ||
  c = '\n' || c = '\r' || c = '\u2028' || c = '\u2029'

/-- JavaScript `trim()`. -/
def jsTrim (l : List Char) : List Char :=
  ((l.dropWhile isWS).reverse.dropWhile isWS).reverse

/-- An editor position: zero-based line, and a character column that the
code may shift below zero (hence `Int`). -/
structure Position where
  line : Nat
  character : Int
  deriving DecidableEq, Repr

/-- The result of `completionHelper`: the (possibly spliced) text and the
query position. -/
structure CompletionFix where
  newText : List Char
  newPosition : Position
  deriving DecidableEq, Repr

/-- `lineOffset[linePos]` — absent when the cursor line is beyond the text's
lines. -/
def lineStartOffset (text : List Char) (linePos : Nat) : Option Nat :=
  (getLineOffsets text).get? linePos

/-- The `end` offset of `completionHelper` after the EOL-stripping loop:
`lineOffset[linePos + 1]` when present (and truthy), the text length
otherwise. -/
def lineEndOffset (text : List Char) (linePos : Nat) : Nat :=
  stripEOLs text (truthyOr ((getLineOffsets text).get? (linePos + 1)) text.length)

/-- `textLine` of `completionHelper`: the substring from the line start
(an undefined start coerces to `0` as in JavaScript) to the stripped end. -/
def lineTextAt (text : List Char) (linePos : Nat) : List Char :=
  jsSubstring text ((lineStartOffset text linePos).getD 0) (lineEndOffset text linePos)

/-- `completionHelper` of `server.ts`. A line already containing `":"`
leaves the text alone and shifts the query column one left; otherwise the
line's visible content, the splice (`"holder:\r\n"`, possibly preceded by a
space after a bare `-` marker, or `":\r\n"`) and the text from the next
line's start are concatenated (`start + textLine.length` is `NaN`, coerced
to `0` by `substring`, when the line start was undefined). -/
def completionHelper (text : List Char) (textDocumentPosition : Position) :
    CompletionFix :=
  let linePos := textDocumentPosition.line
  let textLine := lineTextAt text linePos
  if ':' ∈ textLine then
    { newText := text
      newPosition := { line := textDocumentPosition.line
                       character := textDocumentPosition.character - 1 } }
  else
    let trimmedText := jsTrim textLine
    let visEnd := match lineStartOffset text linePos with
      | some s => min (s + textLine.length) text.length
      | none => 0
    let tailStart := truthyOr ((getLineOffsets text).get? (linePos + 1)) text.length
    if trimmedText.length = 0 ∨
        (trimmedText.length = 1 ∧ trimmedText.get? 0 = some '-') then
      { newText := text.take visEnd ++
          (if trimmedText.get? 0 = some '-' ∧ ¬ textLine.getLast? = some ' '
            then [' '] else []) ++
          ("holder:".toList ++ ['\r', '\n']) ++ text.drop tailStart
        newPosition := textDocumentPosition }
    else
      { newText := text.take visEnd ++ (':' :: ['\r', '\n']) ++ text.drop tailStart
        newPosition := textDocumentPosition }

example : getLineOffsets ['a', '\n', 'b'] = [0, 2] := by decide
example : getLineOffsets ['a', '\r', '\n'] = [0, 3] := by decide
example : getLineOffsets [] = [] := by decide
example : lineTextAt ['a', '\n', 'b', 'c'] 1 = ['b', 'c'] := by decide
example :
    completionHelper ['-', '\n', 'x', ':', ' ', 'y'] ⟨0, 1⟩ =
      { newText := ['-', ' ', 'h', 'o', 'l', 'd', 'e', 'r', ':', '\r', '\n', 'x', ':', ' ', 'y']
        newPosition := ⟨0, 1⟩ } := by decide

/-! ### C3 -/

/-- C3: when the cursor's line already contains the key-delimiter `":"`,
`completionHelper` returns the text unspliced and shifts only the character
coordinate, one left. -/
theorem c3_delimiter_line_no_splice (text : List Char) (pos : Position)
    (h : ':' ∈ lineTextAt text pos.line) :
    (completionHelper text pos).newText = text ∧
    (completionHelper text pos).newPosition.character = pos.character - 1 ∧
    (completionHelper text pos).newPosition.line = pos.line := by
  simp [completionHelper, h]

/-- Witness for C3 on the document `a:b` with the cursor at column 2. -/
theorem c3_delimiter_line_no_splice_witness :
    ':' ∈ lineTextAt ['a', ':', 'b'] 0 ∧
    (completionHelper ['a', ':', 'b'] ⟨0, 2⟩).newText = ['a', ':', 'b'] ∧
    (completionHelper ['a', ':', 'b'] ⟨0, 2⟩).newPosition.character = 1 := by
  refine ⟨by decide, ?_⟩
  have h := c3_delimiter_line_no_splice ['a', ':', 'b'] ⟨0, 2⟩ (by decide)
  exact ⟨h.1, h.2.1⟩

/-! ### C4 -/

/-- The splice the C4 claim describes for a line with non-empty, non-marker
content: a lone `":"` inserted at the end of the visible line content, all
other text — in particular the original line terminator — preserved. -/
def spliceColonAsClaimed (beforeLine lineContent afterLine : List Char) :
    List Char :=
  beforeLine ++ lineContent ++ [':'] ++ afterLine

/-- The splice the C4 claim describes for an empty-trimmed or `-`-marker
line: the placeholder key `holder:` inserted right after the visible line
content, all other text preserved. -/
def spliceHolderAsClaimed (beforeLine lineContent afterLine : List Char) :
    List Char :=
  beforeLine ++ lineContent ++ "holder:".toList ++ afterLine

/-- C4 counterexample — three concrete inputs on which the claim as stated
fails on the code.
(a) On the LF-terminated `a\nb` (cursor line 0, content `a`: no `":"`,
trims to neither empty nor `-`) the code returns `a:\r\nb`: the spliced
`":"` is followed by a CR LF replacing the original `\n`, so the other
text is not preserved as claimed.
(b) On the bare marker line of `-\nx` the code splices ` holder:` — a
space precedes the placeholder key — and again replaces the terminator,
not the claimed bare `holder:` splice with all other text preserved.
(c) On the empty line 1 of `x\n\ny` the code keeps that line's `\n`
terminator and inserts `holder:\r\n` after it, rather than splicing
`holder:` directly after the (empty) visible content with all other text
preserved. -/
theorem c4_counterexample :
    ((completionHelper ['a', '\n', 'b'] ⟨0, 1⟩).newText = ['a', ':', '\r', '\n', 'b'] ∧
      (completionHelper ['a', '\n', 'b'] ⟨0, 1⟩).newText ≠
        spliceColonAsClaimed [] ['a'] ['\n', 'b']) ∧
    ((completionHelper ['-', '\n', 'x'] ⟨0, 1⟩).newText =
        ['-', ' ', 'h', 'o', 'l', 'd', 'e', 'r', ':', '\r', '\n', 'x'] ∧
      (completionHelper ['-', '\n', 'x'] ⟨0, 1⟩).newText ≠
        spliceHolderAsClaimed [] ['-'] ['\n', 'x']) ∧
    ((completionHelper ['x', '\n', '\n', 'y'] ⟨1, 0⟩).newText =
        ['x', '\n', '\n', 'h', 'o', 'l', 'd', 'e', 'r', ':', '\r', '\n', 'y'] ∧
      (completionHelper ['x', '\n', '\n', 'y'] ⟨1, 0⟩).newText ≠
        spliceHolderAsClaimed ['x', '\n'] [] ['\n', 'y']) := by
  exact ⟨⟨by decide, by decide⟩, ⟨by decide, by decide⟩, ⟨by decide, by decide⟩⟩

/-! ### C4: declarative line decomposition

To state the amended C4 independently of the implementation's offset
arithmetic, a document is decomposed as `pre ++ line ++ term ++ post`:
`pre` consists of the cursor line's preceding, terminator-ended lines,
`line` is the cursor line's visible content (no end-of-line characters),
and `term` its LF or CR LF terminator (empty on an unterminated final
line, in which case `post` is empty too). -/

/-- No end-of-line character occurs in `l`. -/
def NoEOL (l : List Char) : Prop := ∀ c ∈ l, is_EOL c = false

/-- `t` is an LF or CR LF line terminator. -/
def IsTerm (t : List Char) : Prop := t = ['\n'] ∨ t = ['\r', '\n']

/-- `TermLines k l`: `l` is the concatenation of exactly `k` lines, each a
terminator-ended run of non-EOL characters. -/
inductive TermLines : Nat → List Char → Prop where
  | nil : TermLines 0 []
  | cons {k : Nat} {line t rest : List Char} :
      NoEOL line → IsTerm t → TermLines k rest →
      TermLines (k + 1) (line ++ (t ++ rest))

theorem TermLines.k_eq_zero {k : Nat} {l : List Char} (h : TermLines k l)
    (hl : l = []) : k = 0 := by
  cases h with
  | nil => rfl
  | @cons k' line t rest hline hterm hrest =>
    exfalso
    rcases List.append_eq_nil.mp hl with ⟨-, h2⟩
    rcases List.append_eq_nil.mp h2 with ⟨ht, -⟩
    rcases hterm with h' | h' <;> simp [h'] at ht

/-- The splice `completionHelper` performs on a delimiter-free cursor line
with visible content `line`: a placeholder key (preceded by a space after a
bare `-` marker not already followed by one) or a lone delimiter, always
followed by a CR LF that replaces the line's original terminator. -/
def spliceFor (line : List Char) : List Char :=
  if jsTrim line = [] then "holder:".toList ++ ['\r', '\n']
  else if jsTrim line = ['-'] then
    (if line.getLast? = some ' ' then [] else [' ']) ++ ("holder:".toList ++ ['\r', '\n'])
  else ':' :: ['\r', '\n']

theorem beq_cr_eq_false_of_not_EOL {c : Char} (h : is_EOL c = false) :
    (c == '\r') = false := by
  cases hc : c == '\r'
  · rfl
  · exact absurd h (by rw [eq_of_beq hc]; decide)

theorem lineOffsetsAux_noEOL_append :
    ∀ (l : List Char), NoEOL l → ∀ (i : Nat) (s : List Char),
      lineOffsetsAux i false false (l ++ s) =
        lineOffsetsAux (i + l.length) false false s := by
  intro l
  induction l with
  | nil => intro _ i s; simp
  | cons c l' ih =>
    intro h i s
    have hc : is_EOL c = false := h c (List.mem_cons_self _ _)
    have hcr := beq_cr_eq_false_of_not_EOL hc
    have hstep : lineOffsetsAux i false false ((c :: l') ++ s) =
        lineOffsetsAux (i + 1) false false (l' ++ s) := by
      simp only [List.cons_append, lineOffsetsAux]
      rw [if_neg (by simp), hc, hcr]
      simp
    rw [hstep, ih (fun d hd => h d (List.mem_cons_of_mem _ hd)) (i + 1) s]
    congr 1
    simp only [List.length_cons]
    omega

theorem lineOffsetsAux_term_append {t : List Char} (h : IsTerm t) (j : Nat) (ls : Bool)
    (u : List Char) :
    lineOffsetsAux j ls false (t ++ u) =
      (if ls = true then [j] else []) ++ lineOffsetsAux (j + t.length) true false u := by
  have hn : is_EOL '\n' = true := by decide
  have hr : is_EOL '\r' = true := by decide
  have hnr : ('\n' == '\r') = false := by decide
  have hrr : ('\r' == '\r') = true := by decide
  rcases h with h | h <;> subst h
  · simp [lineOffsetsAux, hn, hnr]
  · show lineOffsetsAux j ls false ('\r' :: ('\n' :: u)) = _
    simp only [lineOffsetsAux, hr, hrr]
    rw [if_neg (by simp)]
    simp

theorem lineOffsetsAux_head (i : Nat) (s : List Char) (h : 0 < i ∨ s ≠ []) :
    (lineOffsetsAux i true false s).head? = some i := by
  cases s with
  | nil =>
    rcases h with h | h
    · simp [lineOffsetsAux, h]
    · simp at h
  | cons c rest =>
    simp only [lineOffsetsAux]
    rw [if_neg (by simp)]
    simp

theorem lineOffsetsAux_termLines :
    ∀ {k : Nat} {pre : List Char}, TermLines k pre →
      ∀ (i : Nat) (s : List Char), ∃ starts : List Nat,
        lineOffsetsAux i true false (pre ++ s) =
          starts ++ lineOffsetsAux (i + pre.length) true false s ∧
        starts.length = k := by
  intro k pre h
  induction h with
  | nil => intro i s; exact ⟨[], by simp, rfl⟩
  | @cons k' line t rest hline hterm hrest ih =>
    intro i s
    cases line with
    | nil =>
      obtain ⟨starts', hs', hl'⟩ := ih (i + t.length) s
      refine ⟨i :: starts', ?_, by simp [hl']⟩
      simp only [List.nil_append, List.append_assoc, List.length_append]
      rw [lineOffsetsAux_term_append hterm i true (rest ++ s), hs']
      simp [Nat.add_assoc]
    | cons c l' =>
      have hc : is_EOL c = false := hline c (List.mem_cons_self _ _)
      have hcr := beq_cr_eq_false_of_not_EOL hc
      obtain ⟨starts', hs', hl'⟩ := ih (i + 1 + l'.length + t.length) s
      refine ⟨i :: starts', ?_, by simp [hl']⟩
      have hstep : lineOffsetsAux i true false (((c :: l') ++ (t ++ rest)) ++ s) =
          [i] ++ lineOffsetsAux (i + 1) false false (l' ++ (t ++ (rest ++ s))) := by
        simp only [List.cons_append, List.append_assoc, lineOffsetsAux]
        rw [if_neg (by simp), hc, hcr]
        simp
      rw [hstep, lineOffsetsAux_noEOL_append l'
        (fun d hd => hline d (List.mem_cons_of_mem _ hd)),
        lineOffsetsAux_term_append hterm _ false, hs']
      simp only [List.cons_append, List.append_assoc, List.length_append,
        List.length_cons, Nat.add_assoc, List.singleton_append]
      rw [show 1 + (l'.length + (t.length + rest.length)) =
          l'.length + (t.length + (rest.length + 1)) by omega]
      simp

theorem stripEOLs_step (text : List Char) (e : Nat)
    (h : (text.get? e).any is_EOL = true) :
    stripEOLs text (e + 1) = stripEOLs text e := by
  simp only [stripEOLs]
  rw [h]
  simp

theorem stripEOLs_stop (text : List Char) (e : Nat)
    (h : (text.get? e).any is_EOL = false) :
    stripEOLs text (e + 1) = e + 1 := by
  simp only [stripEOLs]
  rw [h]
  simp

theorem get?_append_of_length_eq {α : Type} {starts : List α} {k : Nat}
    (h : starts.length = k) (u : List α) : (starts ++ u).get? k = u.head? := by
  subst h
  rw [List.get?_append_right (Nat.le_refl _)]
  cases u <;> simp

theorem get?_append_succ_of_length_eq {α : Type} {starts : List α} {k : Nat}
    (h : starts.length = k) (a : α) (v : List α) :
    (starts ++ (a :: v)).get? (k + 1) = v.head? := by
  subst h
  rw [List.get?_append_right (Nat.le_succ_of_le (Nat.le_refl _))]
  have : starts.length + 1 - starts.length = 1 := by omega
  rw [this]
  cases v <;> simp

theorem IsTerm.length_pos {t : List Char} (h : IsTerm t) : 0 < t.length := by
  rcases h with h | h <;> simp [h]

theorem lineOffsetsAux_false_nil (i : Nat) :
    lineOffsetsAux i false false [] = [] := by
  simp [lineOffsetsAux]

/-- The line-offset table entries around the cursor line, for a document
decomposed at that line. -/
theorem completion_offsets
    (text pre line term post : List Char) (k : Nat)
    (hsplit : text = pre ++ (line ++ (term ++ post)))
    (hpre : TermLines k pre)
    (hline : NoEOL line)
    (hmain : IsTerm term ∨ (term = [] ∧ post = [] ∧ line ≠ []))
    (hne : line ≠ [] ∨ pre = []) :
    lineStartOffset text k = some pre.length ∧
    truthyOr ((getLineOffsets text).get? (k + 1)) text.length =
      pre.length + line.length + term.length := by
  obtain ⟨starts, hsoff, hslen⟩ := lineOffsetsAux_termLines hpre 0 (line ++ (term ++ post))
  have hG : getLineOffsets text =
      starts ++ lineOffsetsAux pre.length true false (line ++ (term ++ post)) := by
    rw [hsplit]
    simpa [getLineOffsets] using hsoff
  cases hl : line with
  | nil =>
    have hpre0 : pre = [] := by
      rcases hne with hne | hne
      · exact absurd hl hne
      · exact hne
    have hterm : IsTerm term := by
      rcases hmain with h | ⟨-, -, hne'⟩
      · exact h
      · exact absurd hl hne'
    subst hpre0
    have hk0 : k = 0 := hpre.k_eq_zero rfl
    subst hk0
    have hstarts0 : starts = [] := List.length_eq_zero.mp hslen
    subst hstarts0
    have htail : lineOffsetsAux ([] : List Char).length true false ([] ++ (term ++ post)) =
        [0] ++ lineOffsetsAux term.length true false post := by
      simp only [List.length_nil, List.nil_append]
      rw [lineOffsetsAux_term_append hterm 0 true post]
      simp
    rw [hl] at hG
    rw [htail] at hG
    rw [List.singleton_append] at hG
    constructor
    · rw [lineStartOffset, hG]
      simp
    · have hhead : (lineOffsetsAux term.length true false post).head? = some term.length :=
        lineOffsetsAux_head _ _ (Or.inl hterm.length_pos)
      rw [hG]
      rw [get?_append_succ_of_length_eq hslen]
      rw [hhead]
      have hT0 : term.length ≠ 0 := Nat.pos_iff_ne_zero.mp hterm.length_pos
      simp [truthyOr, hT0, hl]
  | cons c l' =>
    have hc : is_EOL c = false := hline c (hl ▸ List.mem_cons_self _ _)
    have hcr := beq_cr_eq_false_of_not_EOL hc
    have hlineNE : NoEOL l' := fun d hd => hline d (hl ▸ List.mem_cons_of_mem _ hd)
    rw [hl] at hG
    have htail : lineOffsetsAux pre.length true false ((c :: l') ++ (term ++ post)) =
        [pre.length] ++ lineOffsetsAux (pre.length + (c :: l').length) false false
          (term ++ post) := by
      have hstep : lineOffsetsAux pre.length true false ((c :: l') ++ (term ++ post)) =
          [pre.length] ++ lineOffsetsAux (pre.length + 1) false false
            (l' ++ (term ++ post)) := by
        simp only [List.cons_append, lineOffsetsAux]
        rw [if_neg (by simp), hc, hcr]
        simp
      rw [hstep, lineOffsetsAux_noEOL_append l' hlineNE]
      congr 2
      simp only [List.length_cons]
      omega
    rw [htail] at hG
    rw [List.singleton_append] at hG
    constructor
    · rw [lineStartOffset, hG]
      exact (get?_append_of_length_eq hslen _).trans rfl
    · rw [hG]
      rw [get?_append_succ_of_length_eq hslen]
      rcases hmain with hterm | ⟨hT, hP, -⟩
      · have hv : lineOffsetsAux (pre.length + (c :: l').length) false false (term ++ post) =
            lineOffsetsAux (pre.length + (c :: l').length + term.length) true false post := by
          rw [lineOffsetsAux_term_append hterm _ false]
          simp
        rw [hv]
        have hpos : 0 < pre.length + (c :: l').length + term.length := by
          simp only [List.length_cons]
          omega
        rw [lineOffsetsAux_head _ _ (Or.inl hpos)]
        have hne0 : pre.length + (c :: l').length + term.length ≠ 0 :=
          Nat.pos_iff_ne_zero.mp hpos
        simp [truthyOr, hne0, hl]
      · subst hT
        subst hP
        simp only [List.append_nil] at hG ⊢
        rw [lineOffsetsAux_false_nil]
        have hlen : text.length = pre.length + (c :: l').length := by
          rw [hsplit, hl]
          simp
        simp [truthyOr, hlen, hl]

theorem completion_take (text pre line term post : List Char)
    (hsplit : text = pre ++ (line ++ (term ++ post))) :
    text.take (pre.length + line.length) = pre ++ line := by
  have htext2 : text = (pre ++ line) ++ (term ++ post) := by
    rw [hsplit]; simp [List.append_assoc]
  rw [htext2]
  exact List.take_left' (by simp)

theorem completion_drop (text pre line term post : List Char)
    (hsplit : text = pre ++ (line ++ (term ++ post))) :
    text.drop (pre.length + line.length + term.length) = post := by
  have htext3 : text = ((pre ++ line) ++ term) ++ post := by
    rw [hsplit]; simp [List.append_assoc]
  rw [htext3]
  exact List.drop_left' (by simp; omega)

theorem completion_endOffset
    (text pre line term post : List Char) (k : Nat)
    (hsplit : text = pre ++ (line ++ (term ++ post)))
    (hpre : TermLines k pre)
    (hline : NoEOL line)
    (hmain : IsTerm term ∨ (term = [] ∧ post = [] ∧ line ≠ []))
    (hne : line ≠ [] ∨ pre = []) :
    lineEndOffset text k = pre.length + line.length := by
  have hoff := (completion_offsets text pre line term post k hsplit hpre hline hmain hne).2
  have htext2 : text = (pre ++ line) ++ (term ++ post) := by
    rw [hsplit]; simp [List.append_assoc]
  have hget : ∀ j, text.get? (pre.length + line.length + j) = (term ++ post).get? j := by
    intro j
    rw [htext2, List.get?_append_right (by simp only [List.length_append]; omega)]
    congr 1
    simp only [List.length_append]
    omega
  have hstripM : stripEOLs text (pre.length + line.length) = pre.length + line.length := by
    rcases List.eq_nil_or_concat line with hnil | ⟨L2, d, hL⟩
    · have hpre0 : pre = [] := by
        rcases hne with hne | hne
        · exact absurd hnil hne
        · exact hne
      subst hpre0
      simp [stripEOLs, hnil]
    · have hdmem : d ∈ line := by
        rw [hL]
        simp
      have hd : is_EOL d = false := hline d hdmem
      have hgd : text.get? (pre.length + L2.length) = some d := by
        have h1 : pre.length + L2.length < (pre ++ line).length := by
          rw [hL]
          simp only [List.concat_eq_append, List.length_append, List.length_cons,
            List.length_nil]
          omega
        rw [htext2, List.get?_append h1, hL, List.concat_eq_append,
          List.get?_append_right (Nat.le_add_right _ _), Nat.add_sub_cancel_left]
        exact List.get?_concat_length _ _
      have harith : pre.length + line.length = (pre.length + L2.length) + 1 := by
        rw [hL]
        simp only [List.concat_eq_append, List.length_append, List.length_cons,
          List.length_nil]
        omega
      rw [harith, stripEOLs_stop text _ (by rw [hgd]; simp [hd])]
  rcases hmain with hterm | ⟨hT, hP, -⟩
  · rcases hterm with ht | ht
    · subst ht
      simp only [lineEndOffset]
      rw [hoff]
      show stripEOLs text (pre.length + line.length + 1) = pre.length + line.length
      have h1 : stripEOLs text (pre.length + line.length + 1) =
          stripEOLs text (pre.length + line.length) := by
        apply stripEOLs_step
        have hj := hget 0
        rw [Nat.add_zero] at hj
        rw [hj]
        simp [is_EOL]
      rw [h1, hstripM]
    · subst ht
      simp only [lineEndOffset]
      rw [hoff]
      show stripEOLs text (pre.length + line.length + 2) = pre.length + line.length
      have h2 : stripEOLs text (pre.length + line.length + 2) =
          stripEOLs text (pre.length + line.length + 1) := by
        apply stripEOLs_step
        have hj := hget 1
        rw [hj]
        simp [is_EOL]
      have h1 : stripEOLs text (pre.length + line.length + 1) =
          stripEOLs text (pre.length + line.length) := by
        apply stripEOLs_step
        have hj := hget 0
        rw [Nat.add_zero] at hj
        rw [hj]
        simp [is_EOL]
      rw [h2, h1, hstripM]
  · subst hT
    simp only [lineEndOffset]
    rw [hoff]
    show stripEOLs text (pre.length + line.length) = pre.length + line.length
    exact hstripM

theorem completion_lineTextAt
    (text pre line term post : List Char) (k : Nat)
    (hsplit : text = pre ++ (line ++ (term ++ post)))
    (hpre : TermLines k pre)
    (hline : NoEOL line)
    (hmain : IsTerm term ∨ (term = [] ∧ post = [] ∧ line ≠ []))
    (hne : line ≠ [] ∨ pre = []) :
    lineTextAt text k = line := by
  have hstart := (completion_offsets text pre line term post k hsplit hpre hline hmain hne).1
  have hend := completion_endOffset text pre line term post k hsplit hpre hline hmain hne
  have hMle : pre.length + line.length ≤ text.length := by
    rw [hsplit]
    simp only [List.length_append]
    omega
  simp only [lineTextAt, hstart, hend, Option.getD_some, jsSubstring]
  rw [Nat.max_eq_right (Nat.le_add_right _ _), Nat.min_eq_left hMle,
    Nat.min_eq_left (Nat.le_add_right _ _),
    Nat.min_eq_left (Nat.le_trans (Nat.le_add_right _ _) hMle)]
  rw [completion_take text pre line term post hsplit]
  exact List.drop_left _ _

theorem trim_cond_iff (l : List Char) :
    ((jsTrim l).length = 0 ∨ ((jsTrim l).length = 1 ∧ (jsTrim l).get? 0 = some '-'))
      ↔ (jsTrim l = [] ∨ jsTrim l = ['-']) := by
  constructor
  · rintro (h | ⟨h1, h2⟩)
    · exact Or.inl (List.length_eq_zero.mp h)
    · right
      obtain ⟨a, ha⟩ := List.length_eq_one.mp h1
      rw [ha] at h2 ⊢
      simp only [List.get?] at h2
      injection h2 with h2
      rw [h2]
  · rintro (h | h) <;> simp [h]

/-- C4 (amended): on a delimiter-free cursor line whose visible content is
nonempty or which is the document's first line, `completionHelper` keeps
the preceding lines and the line's visible content, splices the repair —
`"holder:"` for a line trimming to empty, `" holder:"`/`"holder:"` after a
bare `-` marker (space added unless one is already there), `":"` otherwise —
followed by a CR LF that replaces the line's original terminator, then the
text from the next line on; the query position is unchanged. (An empty
cursor line that is not the first is excluded — there the code keeps that
line's terminator, as part (c) of the counterexample shows.) -/
theorem c4_amended_splice (text pre line term post : List Char) (pos : Position)
    (hsplit : text = pre ++ (line ++ (term ++ post)))
    (hpre : TermLines pos.line pre)
    (hline : NoEOL line)
    (hterm : IsTerm term ∨ (term = [] ∧ post = []))
    (hnc : ':' ∉ line)
    (hne : line ≠ [] ∨ pre = []) :
    completionHelper text pos =
      { newText := pre ++ (line ++ (spliceFor line ++ post)), newPosition := pos } := by
  by_cases hdeg : line = [] ∧ term = []
  · obtain ⟨hl0, ht0⟩ := hdeg
    have hp0 : post = [] := by
      rcases hterm with h | ⟨-, h⟩
      · rw [ht0] at h
        rcases h with h | h <;> simp at h
      · exact h
    have hpre0 : pre = [] := by
      rcases hne with h | h
      · exact absurd hl0 h
      · exact h
    subst hl0
    subst ht0
    subst hp0
    subst hpre0
    have htext0 : text = [] := by rw [hsplit]; rfl
    subst htext0
    obtain ⟨pl, pc⟩ := pos
    have hk : pl = 0 := hpre.k_eq_zero rfl
    subst hk
    rfl
  · have hmain : IsTerm term ∨ (term = [] ∧ post = [] ∧ line ≠ []) := by
      rcases hterm with h | ⟨h1, h2⟩
      · exact Or.inl h
      · exact Or.inr ⟨h1, h2, fun hl0 => hdeg ⟨hl0, h1⟩⟩
    have hstart := (completion_offsets text pre line term post pos.line hsplit hpre hline
      hmain hne).1
    have hnext := (completion_offsets text pre line term post pos.line hsplit hpre hline
      hmain hne).2
    have hend := completion_endOffset text pre line term post pos.line hsplit hpre hline
      hmain hne
    have htla := completion_lineTextAt text pre line term post pos.line hsplit hpre hline
      hmain hne
    have htake := completion_take text pre line term post hsplit
    have hdrop := completion_drop text pre line term post hsplit
    have hMle : pre.length + line.length ≤ text.length := by
      rw [hsplit]
      simp only [List.length_append]
      omega
    simp only [completionHelper, htla, hstart, hnext, if_neg hnc]
    rw [Nat.min_eq_left hMle, htake, hdrop]
    simp only [trim_cond_iff]
    by_cases h1 : jsTrim line = []
    · rw [if_pos (Or.inl h1)]
      have hsp : ¬((jsTrim line).get? 0 = some '-' ∧ ¬line.getLast? = some ' ') := by
        rw [h1]
        simp
      rw [if_neg hsp]
      simp [spliceFor, h1, List.append_assoc]
    · by_cases h2 : jsTrim line = ['-']
      · rw [if_pos (Or.inr h2)]
        by_cases h3 : line.getLast? = some ' '
        · have hsp : ¬((jsTrim line).get? 0 = some '-' ∧ ¬line.getLast? = some ' ') := by
            simp [h3]
          rw [if_neg hsp]
          simp [spliceFor, h1, h2, h3, List.append_assoc]
        · have hsp : (jsTrim line).get? 0 = some '-' ∧ ¬line.getLast? = some ' ' := by
            rw [h2]
            exact ⟨rfl, h3⟩
          rw [if_pos hsp]
          simp [spliceFor, h1, h2, h3, List.append_assoc]
      · rw [if_neg (by rintro (h | h) <;> [exact h1 h; exact h2 h])]
        simp [spliceFor, h1, h2, List.append_assoc]

/-- Witness for the amended C4: the LF-terminated `ab\nc` with the cursor on
line 0 gets `:` plus CR LF spliced after `ab`, and the bare-marker line `-`
gets ` holder:` plus CR LF; positions are unchanged. -/
theorem c4_amended_splice_witness :
    completionHelper ['a', 'b', '\n', 'c'] ⟨0, 2⟩ =
      { newText := ['a', 'b', ':', '\r', '\n', 'c'], newPosition := ⟨0, 2⟩ } ∧
    completionHelper ['-', '\n', 'x'] ⟨0, 1⟩ =
      { newText := ['-', ' ', 'h', 'o', 'l', 'd', 'e', 'r', ':', '\r', '\n', 'x'],
        newPosition := ⟨0, 1⟩ } := by
  constructor
  · have h := c4_amended_splice ['a', 'b', '\n', 'c'] [] ['a', 'b'] ['\n'] ['c'] ⟨0, 2⟩
      rfl TermLines.nil (by unfold NoEOL; decide) (Or.inl (Or.inl rfl)) (by decide)
      (Or.inr rfl)
    exact h.trans (by decide)
  · have h := c4_amended_splice ['-', '\n', 'x'] [] ['-'] ['\n'] ['x'] ⟨0, 1⟩
      rfl TermLines.nil (by unfold NoEOL; decide) (Or.inl (Or.inl rfl)) (by decide)
      (Or.inr rfl)
    exact h.trans (by decide)
